import Mathlib

/-!
Verification of the lciafmt flow-mapping, indicator-consolidation and
method-caching core, shallowly embedded from `lciafmt/__init__.py`.
Collaborator modules that are not part of the visible source
(`lciafmt.cache`, `lciafmt.fmap`, `lciafmt.util`) are modelled from the
specification, as marked in the individual doc comments.  Tables are lists
of rows, numeric factors are rationals, and the on-disk method cache is an
explicit association list threaded through the operations as state.
-/

namespace LciaFmt

/-- A single characterization factor row of a method table (spec §3,
"Factor Row"): method, indicator, indicator unit, flowable, context,
native unit, optional CAS number, numeric factor, optional location. -/
structure Row where
  Method : String
  Indicator : String
  IndicatorUnit : String
  Flowable : String
  Context : String
  Unit : String
  CAS : Option String
  Factor : Rat
  Location : Option String
deriving DecidableEq, Repr

/-- One tuple of the mapping relation (spec §3, "Mapping Relation"):
source flow name, source context (the string "*" marks a context-agnostic
entry), target flow name, target context, unit-conversion factor. -/
structure MappingEntry where
  sourceFlow : String
  sourceContext : String
  targetFlow : String
  targetContext : String
  convFactor : Rat
deriving DecidableEq, Repr

/-- The five-column consolidation key (Method, Indicator, Flowable,
Context, Unit) used by the indicator consolidator. -/
def key5 (r : Row) : String × String × String × String × String :=
  (r.Method, r.Indicator, r.Flowable, r.Context, r.Unit)

/-- The four-column key (Method, Indicator, Flowable, Context) named by the
spec's uniqueness invariant. -/
def key4 (r : Row) : String × String × String × String :=
  (r.Method, r.Indicator, r.Flowable, r.Context)

/-- Character-wise lower-casing of a string (Python `str.lower` /
pandas `.str.lower()` on the ASCII names involved). -/
def lowerString (s : String) : String := ⟨s.data.map Char.toLower⟩

/-- Modelled from the spec: `lciafmt.fmap` mapping-table load (§4.1).
If `caseInsensitive` is true, source-side keys are lower-cased at load
time; otherwise the entries are returned unchanged. -/
def loadMapping (entries : List MappingEntry) (caseInsensitive : Bool) :
    List MappingEntry :=
  if caseInsensitive then
    entries.map (fun e => { e with sourceFlow := lowerString e.sourceFlow })
  else entries

/-- Modelled from the spec: `lciafmt.fmap` lookup (§4.1).  The query key is
lower-cased when `caseInsensitive` is true; a context-specific entry
(SourceFlowName, SourceContext) takes precedence, with fallback to the
context-agnostic entry (SourceFlowName, "*"). -/
def lookupMapping (rel : List MappingEntry) (caseInsensitive : Bool)
    (flow ctx : String) : Option MappingEntry :=
  let key := if caseInsensitive then lowerString flow else flow
  match rel.find? (fun e => e.sourceFlow == key && e.sourceContext == ctx) with
  | some e => some e
  | none => rel.find? (fun e => e.sourceFlow == key && e.sourceContext == "*")

/-- Outcome of mapping one factor row: mapped (provenance "mapped"),
preserved unchanged (provenance "unmapped"), or dropped and counted. -/
inductive MapOutcome where
  | mapped : Row → MapOutcome
  | preservedRow : Row → MapOutcome
  | dropped : MapOutcome
deriving DecidableEq, Repr

/-- Modelled from the spec: the per-row step of `lciafmt.fmap.Mapper.run`
(§4.2).  A match replaces Flowable/Context by the target side and
multiplies the Factor by the conversion factor; on a miss the row is
preserved unchanged when `preserveUnmapped` is set, and dropped
otherwise. -/
def mapRow (rel : List MappingEntry) (caseInsensitive preserveUnmapped : Bool)
    (r : Row) : MapOutcome :=
  match lookupMapping rel caseInsensitive r.Flowable r.Context with
  | some e => .mapped { r with Flowable := e.targetFlow,
                               Context := e.targetContext,
                               Factor := r.Factor * e.convFactor }
  | none => if preserveUnmapped then .preservedRow r else .dropped

/-- Modelled from the spec: `lciafmt.fmap.Mapper.run` over a whole table
(§4.2), recording the outcome of every input row in order. -/
def mapFlows (rel : List MappingEntry) (caseInsensitive preserveUnmapped : Bool)
    (df : List Row) : List MapOutcome :=
  df.map (mapRow rel caseInsensitive preserveUnmapped)

def isMappedOutcome : MapOutcome → Bool
  | .mapped _ => true
  | _ => false

def isPreservedOutcome : MapOutcome → Bool
  | .preservedRow _ => true
  | _ => false

def isDroppedOutcome : MapOutcome → Bool
  | .dropped => true
  | _ => false

def countMapped (os : List MapOutcome) : Nat := os.countP isMappedOutcome

def countPreserved (os : List MapOutcome) : Nat := os.countP isPreservedOutcome

def countDropped (os : List MapOutcome) : Nat := os.countP isDroppedOutcome

/-- The row carried by a non-dropped outcome. -/
def outcomeRow? : MapOutcome → Option Row
  | .mapped r => some r
  | .preservedRow r => some r
  | .dropped => none

/-- The output table of a mapping run: emitted rows in input order,
dropped rows omitted (the returned DataFrame of `map_flows`). -/
def runMapFlows (rel : List MappingEntry)
    (caseInsensitive preserveUnmapped : Bool) (df : List Row) : List Row :=
  (mapFlows rel caseInsensitive preserveUnmapped df).filterMap outcomeRow?

/-- The merged representative of a consolidation group: the first row of
the group with the Factor replaced by the group's factor sum. -/
def mergeRow (r : Row) (same : List Row) : Row :=
  { r with Factor := r.Factor + (same.map Row.Factor).sum }

/-- Modelled from the spec: `lciafmt.util.collapse_indicators` (§4.3).
Groups rows by (Method, Indicator, Flowable, Context, Unit) in order of
first occurrence, sums the Factor values of each group, and resolves
non-numeric metadata first-non-null-wins (the first row of the group is
retained). -/
def collapse : List Row → List Row
  | [] => []
  | r :: rs =>
    mergeRow r (rs.filter (fun x => key5 x == key5 r)) ::
      collapse (rs.filter (fun x => !(key5 x == key5 r)))
termination_by l => l.length
decreasing_by
  calc (rs.filter (fun x => !(key5 x == key5 r))).length ≤ rs.length :=
        List.length_filter_le _ _
    _ < (r :: rs).length := by simp

/-- Modelled from the spec: the state of `lciafmt.cache` (§4.4), an
association of method identifiers to persisted consolidated tables.  The
durable columnar artifacts are modelled as the in-memory tables they
round-trip through. -/
structure CacheState where
  store : List (String × List Row)
deriving DecidableEq, Repr

/-- The cache state in which no artifact exists for any method. -/
def emptyCache : CacheState := ⟨[]⟩

/-- Modelled from the spec: `lciafmt.util.read_method` via the cache
(§4.4): returns the artifact for a method identifier, or `none` when it is
absent (never throws on a miss). -/
def cacheRead (s : CacheState) (methodId : String) : Option (List Row) :=
  (s.store.find? (fun p => p.fst == methodId)).map Prod.snd

/-- Modelled from the spec: `lciafmt.util.store_method` via the cache
(§4.4): persists the table under the identifier, overwriting any prior
artifact for the same identifier. -/
def cacheStore (s : CacheState) (methodId : String) (t : List Row) :
    CacheState :=
  ⟨(methodId, t) :: s.store.filter (fun p => !(p.fst == methodId))⟩

/-- Modelled from the spec: `lciafmt.cache.clear` (§4.4): removes all
cached artifacts for all methods; safe on an empty cache. -/
def cacheClear (_s : CacheState) : CacheState := ⟨[]⟩

/-- Embedding of `clear_cache` (`__init__.py` lines 117-119): delegates to
the cache's clear operation. -/
def clear_cache (s : CacheState) : CacheState := cacheClear s

/-- The `Method` enumeration of `__init__.py` lines 28-34. -/
inductive Method where
  | TRACI
  | RECIPE_2016
  | FEDEFL_INV
  | ImpactWorld
deriving DecidableEq, Repr

/-- The enum member name (Python `Method.name`). -/
def methodName : Method → String
  | .TRACI => "TRACI"
  | .RECIPE_2016 => "RECIPE_2016"
  | .FEDEFL_INV => "FEDEFL_INV"
  | .ImpactWorld => "ImpactWorld"

/-- The enum member value (Python `Method.value`, lines 31-34). -/
def methodValue : Method → String
  | .TRACI => "TRACI 2.1"
  | .RECIPE_2016 => "ReCiPe 2016"
  | .FEDEFL_INV => "FEDEFL Inventory"
  | .ImpactWorld => "ImpactWorld"

/-- Iteration order of `Method.__members__` (declaration order). -/
def methodMembers : List Method :=
  [.TRACI, .RECIPE_2016, .FEDEFL_INV, .ImpactWorld]

/-- One entry of the method metadata file `data/methods.json` (not part of
the visible source; its fields are those read by `__init__.py`): id,
display name, storage path, optional mapping-system name, case-sensitivity
flag, and the keys of the sub-methods dictionary. -/
structure MethodMeta where
  id : String
  name : String
  path : String
  mapping : Option String
  case_insensitivity : Bool
  methods : List String
deriving DecidableEq, Repr

/-- Embedding of `Method.get_metadata` (lines 36-46): scans the supported
methods metadata for the entry whose id equals the member name, returning
`none` when no entry matches (Python falls off the loop and returns
None). -/
def get_metadata (env : List MethodMeta) (m : Method) : Option MethodMeta :=
  env.find? (fun mm => mm.id == methodName m)

/-- The member-matching test of `Method.get_class` line 68: the query
string equals the member name, the display value, the metadata's mapping
name, or one of the sub-method keys. -/
def matchesKey (nm : String) (c : Method) (mm : MethodMeta) : Bool :=
  methodName c == nm || methodValue c == nm || mm.mapping == some nm ||
    mm.methods.contains nm

/-- The member loop of `Method.get_class` (lines 60-69).  A member whose
metadata is absent makes the Python `'mapping' in m` test raise a
TypeError, modelled as the error result. -/
def get_classAux (env : List MethodMeta) (nm : String) :
    List Method → Except String (Option Method)
  | [] => .ok none
  | c :: cs =>
    match get_metadata env c with
    | none => .error "TypeError"
    | some mm =>
      if matchesKey nm c mm then .ok (some c) else get_classAux env nm cs

/-- Embedding of `Method.get_class` (lines 58-70): returns the first
member matching the string, or logs "Method not found" and returns None
when no member matches. -/
def get_class (env : List MethodMeta) (nm : String) :
    Except String (Option Method × List String) :=
  match get_classAux env nm methodMembers with
  | .error e => .error e
  | .ok (some c) => .ok (some c, [])
  | .ok none => .ok (none, ["Method not found"])

/-- The out-of-scope collaborators `get_mapped_method` composes: the method
metadata file, the format-specific raw getters, and the mapping-system
registry of fedelemflowlist. -/
structure GenEnv where
  meta : List MethodMeta
  rawMethod : Method → List Row
  mappingSystem : String → List MappingEntry

/-- Embedding of `get_method` (lines 104-114): branches on the resolved
method identifier, falling through to None (no branch taken) when the
identifier is none of the four members. -/
def get_method (env : GenEnv) (mid : Option Method) : Option (List Row) :=
  if mid == some Method.TRACI then some (env.rawMethod Method.TRACI)
  else if mid == some Method.RECIPE_2016 then
    some (env.rawMethod Method.RECIPE_2016)
  else if mid == some Method.ImpactWorld then
    some (env.rawMethod Method.ImpactWorld)
  else if mid == some Method.FEDEFL_INV then
    some (env.rawMethod Method.FEDEFL_INV)
  else none

/-- Modelled from the spec: `lciafmt.util.check_as_class` applied to a
string identifier (§9: resolve by any matching key), composed with
`get_method` as on line 104: resolution failure propagates as None, a
resolved member dispatches to its raw getter. -/
def get_method_by_name (env : GenEnv) (nm : String) :
    Except String (Option (List Row)) :=
  match get_class env.meta nm with
  | .error e => .error e
  | .ok (mo, _) => .ok (get_method env mo)

/-- Result of one `get_mapped_method` call: the returned table, the cache
state after the call, how many times the flow-mapping step ran during the
call, and the log messages emitted. -/
structure GmmResult where
  table : List Row
  state : CacheState
  mapRuns : Nat
  logs : List String
deriving DecidableEq, Repr

/-- The indicator filter of `get_mapped_method` lines 178-181: restrict to
the requested indicators and log an error when the result is empty. -/
def filterIndicators (t : List Row) (indicators : Option (List String)) :
    List Row × List String :=
  match indicators with
  | none => (t, [])
  | some inds =>
    let f := t.filter (fun r => inds.contains r.Indicator)
    (f, if f.length == 0 then ["indicator not found"] else [])

/-- The method filter of `get_mapped_method` lines 182-185: restrict to
the requested method versions and log an error when the result is empty. -/
def filterMethods (t : List Row) (methodsFilter : Option (List String)) :
    List Row × List String :=
  match methodsFilter with
  | none => (t, [])
  | some ms =>
    let f := t.filter (fun r => ms.contains r.Method)
    (f, if f.length == 0 then ["specified method not found"] else [])

/-- Both caller filters of `get_mapped_method` lines 178-185, in order. -/
def applyFilters (t : List Row)
    (indicators methodsFilter : Option (List String)) :
    List Row × List String :=
  let p1 := filterIndicators t indicators
  let p2 := filterMethods p1.fst methodsFilter
  (p2.fst, p1.snd ++ p2.snd)

/-- Embedding of `get_mapped_method` (lines 151-187) for a resolved method
identifier.  On a cache hit the stored table is filtered and returned; on
a miss the raw method is generated, and when its metadata names a mapping
system the table is lower-cased per the case-insensitivity flag, mapped,
consolidated and persisted.  `none` models the Python call raising (the
line-167 membership test on an absent metadata entry).  `mapRuns` counts
executions of the flow-mapping step (line 172). -/
def get_mapped_method (env : GenEnv) (s : CacheState) (m : Method)
    (indicators methodsFilter : Option (List String)) : Option GmmResult :=
  match cacheRead s (methodName m) with
  | some t =>
    let p := applyFilters t indicators methodsFilter
    some ⟨p.fst, s, 0, p.snd⟩
  | none =>
    match get_metadata env.meta m with
    | none => none
    | some mm =>
      let genLog := "generating " ++ methodName m
      let method := env.rawMethod m
      match mm.mapping with
      | some sys =>
        let ci := mm.case_insensitivity
        let method1 :=
          if ci then
            method.map (fun r => { r with Flowable := lowerString r.Flowable })
          else method
        let mapped :=
          collapse (runMapFlows (loadMapping (env.mappingSystem sys) ci)
            ci false method1)
        let s1 := cacheStore s (methodName m) mapped
        let p := applyFilters mapped indicators methodsFilter
        some ⟨p.fst, s1, 1, genLog :: p.snd⟩
      | none =>
        let p := applyFilters method indicators methodsFilter
        some ⟨p.fst, s, 0, genLog :: p.snd⟩

/-- Boolean per-member check used to state that a query string matches no
lookup key of a member whose metadata entry is present. -/
def goodMeta (env : List MethodMeta) (nm : String) (c : Method) : Bool :=
  match get_metadata env c with
  | none => false
  | some mm => !(matchesKey nm c mm)

/-! Concrete fixtures used by the witnesses of the individual claims. -/

/-- Two factor rows sharing the full five-column consolidation key, with
factors 1 and 2. -/
def nitrogenRows : List Row :=
  [⟨"TRACI 2.1", "Acidification", "kg SO2 eq", "Nitrogen oxides",
    "emission/air", "kg", none, 1, none⟩,
   ⟨"TRACI 2.1", "Acidification", "kg SO2 eq", "Nitrogen oxides",
    "emission/air", "kg", none, 2, none⟩]

/-- The consolidation key shared by `nitrogenRows`. -/
def nitrogenKey : String × String × String × String × String :=
  ("TRACI 2.1", "Acidification", "Nitrogen oxides", "emission/air", "kg")

/-- A one-entry mapping relation whose source flow name is "co2". -/
def relCO2 : List MappingEntry :=
  [⟨"co2", "air", "Carbon dioxide", "emission/air", 1⟩]

/-- A base factor row used by the case-insensitivity witness. -/
def rowBase : Row :=
  ⟨"M", "I", "IU", "x", "air", "kg", none, 3, none⟩

/-- A metadata entry naming a mapping system, for the memoization
witness. -/
def w1Meta : MethodMeta :=
  ⟨"TRACI", "TRACI 2.1", "traci", some "TRACI2.1", false, []⟩

/-- A generation environment whose raw getter yields one row and whose
mapping registry maps it. -/
def w1Env : GenEnv :=
  ⟨[w1Meta],
   fun _ => [⟨"TRACI 2.1", "I", "IU", "NOx", "air", "kg", none, 2, none⟩],
   fun _ => [⟨"NOx", "air", "Nitrogen oxides", "emission/air", 1⟩]⟩

/-- A generation environment for the empty-filter witness. -/
def w8Env : GenEnv := ⟨[], fun _ => [], fun _ => []⟩

/-- A cached table for the empty-filter witness. -/
def w8Table : List Row :=
  [⟨"TRACI 2.1", "Acidification", "IU", "NOx", "air", "kg", none, 2, none⟩]

/-- A cache state holding `w8Table` for TRACI. -/
def w8State : CacheState := ⟨[("TRACI", w8Table)]⟩

/-- The shipped `data/methods.json` content as read by the code: one
entry per member, for the unknown-identifier witness. -/
def w10Meta : List MethodMeta :=
  [⟨"TRACI", "TRACI 2.1", "traci", some "TRACI2.1", false, []⟩,
   ⟨"RECIPE_2016", "ReCiPe 2016", "recipe", some "ReCiPe2016", true,
    ["Midpoint", "Endpoint"]⟩,
   ⟨"FEDEFL_INV", "FEDEFL Inventory", "fedefl", none, false, []⟩,
   ⟨"ImpactWorld", "ImpactWorld", "impactworld", some "ImpactWorld", false,
    []⟩]

/-- A generation environment over `w10Meta`. -/
def w10Env : GenEnv := ⟨w10Meta, fun _ => [], fun _ => []⟩

/-- A cache state with an artifact under another identifier, for the
round-trip witness. -/
def w6State : CacheState := ⟨[("RECIPE_2016", [])]⟩

/-- A one-row table for the round-trip witness. -/
def w6Table : List Row :=
  [⟨"TRACI 2.1", "I", "IU", "NOx", "air", "kg", none, 5, none⟩]

/-!  General lemmas about the embedded operations.  -/

theorem key5_mergeRow (r : Row) (same : List Row) :
    key5 (mergeRow r same) = key5 r := rfl

theorem collapse_nil : collapse [] = [] := by rw [collapse]

theorem collapse_cons (r : Row) (rs : List Row) :
    collapse (r :: rs) =
      mergeRow r (rs.filter (fun x => key5 x == key5 r)) ::
        collapse (rs.filter (fun x => !(key5 x == key5 r))) := by
  rw [collapse]

theorem collapse_key_mem (l : List Row) :
    ∀ x ∈ collapse l, key5 x ∈ l.map key5 := by
  induction l using collapse.induct with
  | case1 => intro x hx; rw [collapse_nil] at hx; cases hx
  | case2 r rs ih =>
    intro x hx
    rw [collapse_cons] at hx
    rcases List.mem_cons.mp hx with h | h
    · subst h
      simp [key5_mergeRow]
    · have hk := ih x h
      rcases List.mem_map.mp hk with ⟨y, hy, hky⟩
      exact List.mem_map.mpr
        ⟨y, List.mem_cons_of_mem _ (List.mem_filter.mp hy).1, hky⟩

theorem collapse_keys_nodup (l : List Row) :
    ((collapse l).map key5).Nodup := by
  induction l using collapse.induct with
  | case1 => rw [collapse_nil]; exact List.nodup_nil
  | case2 r rs ih =>
    rw [collapse_cons]
    simp only [List.map_cons, List.nodup_cons]
    refine ⟨?_, ih⟩
    intro hmem
    rw [key5_mergeRow] at hmem
    rcases List.mem_map.mp hmem with ⟨x, hx, hkx⟩
    have hk := collapse_key_mem _ x hx
    rcases List.mem_map.mp hk with ⟨y, hy, hky⟩
    have h2 := (List.mem_filter.mp hy).2
    rw [hky, hkx] at h2
    simp at h2

theorem filter_keyne_of_ne {k : String × String × String × String × String}
    (r : Row) (rs : List Row) (hne : k ≠ key5 r) :
    (rs.filter (fun x => !(key5 x == key5 r))).filter (fun x => key5 x == k)
      = rs.filter (fun x => key5 x == k) := by
  rw [List.filter_filter]
  apply List.filter_congr
  intro x _
  cases hx : (key5 x == k) with
  | false => simp [hx]
  | true =>
    have : key5 x = k := by simpa using hx
    simp [hx, this, hne]

theorem collapse_filter_sum (l : List Row)
    (k : String × String × String × String × String) :
    (((collapse l).filter (fun r => key5 r == k)).map Row.Factor).sum
      = ((l.filter (fun r => key5 r == k)).map Row.Factor).sum := by
  induction l using collapse.induct with
  | case1 => rw [collapse_nil]
  | case2 r rs ih =>
    rw [collapse_cons]
    by_cases hk : k = key5 r
    · subst hk
      have hc1 : (key5 (mergeRow r (rs.filter (fun x => key5 x == key5 r)))
          == key5 r) = true := by
        simp [key5_mergeRow]
      have hc2 : (key5 r == key5 r) = true := by simp
      have hnil : (collapse (rs.filter (fun x => !(key5 x == key5 r)))).filter
          (fun x => key5 x == key5 r) = [] := by
        apply List.filter_eq_nil_iff.mpr
        intro x hx
        have hm := collapse_key_mem _ x hx
        rcases List.mem_map.mp hm with ⟨y, hy, hky⟩
        have h2 := (List.mem_filter.mp hy).2
        rw [hky] at h2
        simpa using h2
      rw [List.filter_cons, List.filter_cons, if_pos hc1, if_pos hc2, hnil]
      simp [mergeRow]
    · have hne : ¬ ((key5 r == k) = true) := by
        simp only [beq_iff_eq]
        intro h
        exact hk h.symm
      have hm : ¬ ((key5 (mergeRow r (rs.filter (fun x => key5 x == key5 r)))
          == k) = true) := by
        rw [key5_mergeRow]
        exact hne
      rw [List.filter_cons, List.filter_cons, if_neg hm, if_neg hne, ih,
        filter_keyne_of_ne r rs hk]

theorem collapse_filter_length (l : List Row)
    (k : String × String × String × String × String) (hk : k ∈ l.map key5) :
    ((collapse l).filter (fun r => key5 r == k)).length = 1 := by
  induction l using collapse.induct with
  | case1 => simp at hk
  | case2 r rs ih =>
    rw [collapse_cons]
    by_cases hkr : k = key5 r
    · subst hkr
      have hc1 : (key5 (mergeRow r (rs.filter (fun x => key5 x == key5 r)))
          == key5 r) = true := by
        simp [key5_mergeRow]
      have hnil : (collapse (rs.filter (fun x => !(key5 x == key5 r)))).filter
          (fun x => key5 x == key5 r) = [] := by
        apply List.filter_eq_nil_iff.mpr
        intro x hx
        have hm := collapse_key_mem _ x hx
        rcases List.mem_map.mp hm with ⟨y, hy, hky⟩
        have h2 := (List.mem_filter.mp hy).2
        rw [hky] at h2
        simpa using h2
      rw [List.filter_cons, if_pos hc1, hnil]
      rfl
    · have hm : ¬ ((key5 (mergeRow r (rs.filter (fun x => key5 x == key5 r)))
          == k) = true) := by
        simp only [key5_mergeRow, beq_iff_eq]
        intro h
        exact hkr h.symm
      rw [List.filter_cons, if_neg hm]
      apply ih
      simp only [List.map_cons, List.mem_cons] at hk
      rcases hk with h | h
      · exact absurd h hkr
      · rcases List.mem_map.mp h with ⟨y, hy, hky⟩
        apply List.mem_map.mpr
        refine ⟨y, List.mem_filter.mpr ⟨hy, ?_⟩, hky⟩
        simp only [Bool.not_eq_true', beq_eq_false_iff_ne, ne_eq]
        intro he
        rw [he] at hky
        exact hkr hky.symm

theorem collapse_of_nodup (l : List Row) (h : (l.map key5).Nodup) :
    collapse l = l := by
  induction l with
  | nil => exact collapse_nil
  | cons r rs ih =>
    rw [collapse_cons]
    simp only [List.map_cons, List.nodup_cons] at h
    have hsame : rs.filter (fun x => key5 x == key5 r) = [] := by
      apply List.filter_eq_nil_iff.mpr
      intro x hx
      simp only [beq_iff_eq]
      intro he
      exact h.1 (List.mem_map.mpr ⟨x, hx, he⟩)
    have hrest : rs.filter (fun x => !(key5 x == key5 r)) = rs := by
      apply List.filter_eq_self.mpr
      intro x hx
      simp only [Bool.not_eq_true', beq_eq_false_iff_ne, ne_eq]
      intro he
      exact h.1 (List.mem_map.mpr ⟨x, hx, he⟩)
    have hmerge : mergeRow r [] = r := by
      cases r
      simp [mergeRow]
    rw [hsame, hrest, ih h.2, hmerge]

theorem countP_cons_toNat {α : Type} (p : α → Bool) (o : α) (os : List α) :
    (o :: os).countP p = os.countP p + (p o).toNat := by
  cases h : p o <;> simp [List.countP_cons, h]

theorem outcome_classes_one (o : MapOutcome) :
    (isMappedOutcome o).toNat + (isPreservedOutcome o).toNat
      + (isDroppedOutcome o).toNat = 1 := by
  cases o <;> rfl

theorem lookupMapping_lower (rel : List MappingEntry) (f1 f2 ctx : String)
    (h : lowerString f1 = lowerString f2) :
    lookupMapping rel true f1 ctx = lookupMapping rel true f2 ctx := by
  simp only [lookupMapping, if_pos, h]

theorem find?_filter_of_imp {α : Type} (l : List α) (p q : α → Bool)
    (h : ∀ x, p x = true → q x = true) :
    (l.filter q).find? p = l.find? p := by
  induction l with
  | nil => rfl
  | cons a l ih =>
    by_cases hq : q a = true
    · rw [List.filter_cons, if_pos hq]
      by_cases hp : p a = true
      · rw [List.find?_cons_of_pos _ hp, List.find?_cons_of_pos _ hp]
      · rw [List.find?_cons_of_neg _ hp, List.find?_cons_of_neg _ hp, ih]
    · have hp : ¬ (p a = true) := fun hpa => hq (h a hpa)
      rw [List.filter_cons, if_neg hq, List.find?_cons_of_neg _ hp, ih]

theorem cacheRead_store_self (s : CacheState) (k : String) (t : List Row) :
    cacheRead (cacheStore s k t) k = some t := by
  simp [cacheRead, cacheStore]

theorem cacheRead_store_other (s : CacheState) (k k' : String)
    (t : List Row) (h : k' ≠ k) :
    cacheRead (cacheStore s k t) k' = cacheRead s k' := by
  simp only [cacheRead, cacheStore]
  rw [List.find?_cons_of_neg, find?_filter_of_imp]
  · intro x hx
    have hx' : x.fst = k' := by simpa using hx
    simp [hx', h]
  · simp [h, Ne.symm h]

theorem cacheStore_overwrite (s : CacheState) (k : String)
    (t tPrior : List Row) :
    cacheStore (cacheStore s k tPrior) k t = cacheStore s k t := by
  simp only [cacheStore, CacheState.mk.injEq, List.cons.injEq, true_and]
  rw [List.filter_cons]
  have hc : ¬ ((!((k, tPrior).fst == k)) = true) := by simp
  rw [if_neg hc, List.filter_filter]
  apply List.filter_congr
  intro x _
  simp

theorem get_classAux_none (env : List MethodMeta) (nm : String)
    (cs : List Method)
    (h : ∀ c ∈ cs, goodMeta env nm c = true) :
    get_classAux env nm cs = .ok none := by
  induction cs with
  | nil => rfl
  | cons c cs ih =>
    have hc := h c (List.mem_cons_self c cs)
    unfold goodMeta at hc
    rcases hm : get_metadata env c with _ | mm
    · rw [hm] at hc; cases hc
    · rw [hm] at hc
      have hf : ¬ (matchesKey nm c mm = true) := by simpa using hc
      simp only [get_classAux, hm, if_neg hf]
      exact ih (fun c' hc' => h c' (List.mem_cons_of_mem _ hc'))

/-! Claim theorems. -/

/-- C2 (amended): consolidation groups rows by the five-column key
(Method, Indicator, Flowable, Context, Unit): its output has pairwise
distinct five-column keys, and for every key occurring in the input there
is exactly one output row carrying that key, whose Factor is the sum of
the input Factors of the group (1.0 and 2.0 become one row with 3.0).
The four-column invariant of the original claim is refuted separately. -/
theorem collapse_consolidates (rows : List Row) :
    ((collapse rows).map key5).Nodup ∧
    ∀ k ∈ rows.map key5,
      ((collapse rows).filter (fun r => key5 r == k)).length = 1 ∧
      (((collapse rows).filter (fun r => key5 r == k)).map Row.Factor).sum
        = ((rows.filter (fun r => key5 r == k)).map Row.Factor).sum :=
  ⟨collapse_keys_nodup rows, fun k hk =>
    ⟨collapse_filter_length rows k hk, collapse_filter_sum rows k⟩⟩

/-- Witness for C2 at the concrete Nitrogen-oxides scenario: two rows with
factors 1 and 2 on the same key consolidate to exactly one row whose
factor sums to 3. -/
theorem collapse_consolidates_witness :
    nitrogenKey ∈ nitrogenRows.map key5 ∧
    (((collapse nitrogenRows).filter
        (fun r => key5 r == nitrogenKey)).length = 1 ∧
      (((collapse nitrogenRows).filter
          (fun r => key5 r == nitrogenKey)).map Row.Factor).sum
        = ((nitrogenRows.filter
            (fun r => key5 r == nitrogenKey)).map Row.Factor).sum) :=
  ⟨by decide, (collapse_consolidates nitrogenRows).2 nitrogenKey (by decide)⟩

/-- Counterexample for C2 as stated: two rows agreeing on (Method,
Indicator, Flowable, Context) but with different Units survive
consolidation as two rows, so no-two-rows-share-the-four-column-key is
false on the consolidated output. -/
theorem collapse_key4_counterexample :
    ¬ (((collapse
        [⟨"M", "I", "IU", "F", "C", "kg", none, 1, none⟩,
         ⟨"M", "I", "IU", "F", "C", "g", none, 2, none⟩]).map key4).Nodup) := by
  simp [collapse, mergeRow, key5, key4]

/-- C4: consolidation is idempotent: collapsing an already collapsed table
is a no-op, collapse (collapse T) = collapse T for every table T. -/
theorem collapse_idempotent (rows : List Row) :
    collapse (collapse rows) = collapse rows :=
  collapse_of_nodup (collapse rows) (collapse_keys_nodup rows)
/-- C3: a mapping run partitions the input rows: every row is classified
as mapped exactly when its lookup matches, preserved exactly when there is
no match and preservation is requested, and dropped exactly when there is
no match and preservation is off; the three counts sum to the number of
input rows. -/
theorem map_flows_partition (rel : List MappingEntry)
    (caseInsensitive preserveUnmapped : Bool) (df : List Row) :
    countMapped (mapFlows rel caseInsensitive preserveUnmapped df)
      + countPreserved (mapFlows rel caseInsensitive preserveUnmapped df)
      + countDropped (mapFlows rel caseInsensitive preserveUnmapped df)
      = df.length ∧
    ∀ r : Row,
      (isMappedOutcome (mapRow rel caseInsensitive preserveUnmapped r)).toNat
        + (isPreservedOutcome
            (mapRow rel caseInsensitive preserveUnmapped r)).toNat
        + (isDroppedOutcome
            (mapRow rel caseInsensitive preserveUnmapped r)).toNat = 1 ∧
      isMappedOutcome (mapRow rel caseInsensitive preserveUnmapped r)
        = (lookupMapping rel caseInsensitive r.Flowable r.Context).isSome ∧
      isPreservedOutcome (mapRow rel caseInsensitive preserveUnmapped r)
        = ((lookupMapping rel caseInsensitive r.Flowable r.Context).isNone
            && preserveUnmapped) ∧
      isDroppedOutcome (mapRow rel caseInsensitive preserveUnmapped r)
        = ((lookupMapping rel caseInsensitive r.Flowable r.Context).isNone
            && !preserveUnmapped) := by
  constructor
  · induction df with
    | nil => rfl
    | cons a l ih =>
      have hm : mapFlows rel caseInsensitive preserveUnmapped (a :: l)
          = mapRow rel caseInsensitive preserveUnmapped a ::
              mapFlows rel caseInsensitive preserveUnmapped l := rfl
      have h1 := outcome_classes_one
        (mapRow rel caseInsensitive preserveUnmapped a)
      simp only [countMapped, countPreserved, countDropped] at ih ⊢
      rw [hm, countP_cons_toNat, countP_cons_toNat, countP_cons_toNat,
        List.length_cons]
      omega
  · intro r
    refine ⟨outcome_classes_one _, ?_, ?_, ?_⟩ <;>
      · unfold mapRow
        rcases lookupMapping rel caseInsensitive r.Flowable r.Context with
          _ | e <;> cases preserveUnmapped <;>
          simp [isMappedOutcome, isPreservedOutcome, isDroppedOutcome]

/-- C7: with mapping entries for both (F, "air") and (F, "*"), a row in
context "air" is mapped by the context-specific entry (factor 2 here,
target context kept "air"), while a row in context "water" falls back to
the context-agnostic entry (factor 5, target context "ground"):
context-specific mappings take precedence over context-agnostic ones. -/
theorem context_fallback_precedence :
    lookupMapping [⟨"F", "air", "Fc", "air", 2⟩, ⟨"F", "*", "Fc", "ground", 5⟩]
        false "F" "air" = some ⟨"F", "air", "Fc", "air", 2⟩ ∧
    lookupMapping [⟨"F", "air", "Fc", "air", 2⟩, ⟨"F", "*", "Fc", "ground", 5⟩]
        false "F" "water" = some ⟨"F", "*", "Fc", "ground", 5⟩ ∧
    mapRow [⟨"F", "air", "Fc", "air", 2⟩, ⟨"F", "*", "Fc", "ground", 5⟩]
        false false ⟨"M", "I", "IU", "F", "air", "kg", none, 10, none⟩
      = .mapped ⟨"M", "I", "IU", "Fc", "air", "kg", none, 20, none⟩ ∧
    mapRow [⟨"F", "air", "Fc", "air", 2⟩, ⟨"F", "*", "Fc", "ground", 5⟩]
        false false ⟨"M", "I", "IU", "F", "water", "kg", none, 10, none⟩
      = .mapped ⟨"M", "I", "IU", "Fc", "ground", "kg", none, 50, none⟩ := by
  refine ⟨by decide, by decide, ?_, ?_⟩
  · have hl : lookupMapping
        [⟨"F", "air", "Fc", "air", 2⟩, ⟨"F", "*", "Fc", "ground", 5⟩]
        false "F" "air" = some ⟨"F", "air", "Fc", "air", 2⟩ := by decide
    simp only [mapRow, hl]
    norm_num
  · have hl : lookupMapping
        [⟨"F", "air", "Fc", "air", 2⟩, ⟨"F", "*", "Fc", "ground", 5⟩]
        false "F" "water" = some ⟨"F", "*", "Fc", "ground", 5⟩ := by decide
    simp only [mapRow, hl]
    norm_num
/-- C5: under case-insensitive mapping, two input rows that differ only in
the case of their Flowable (same lower-casing) and have a matching mapping
entry produce identical mapped output, because source keys are lower-cased
at load time and lookup keys are lower-cased identically. -/
theorem map_flows_case_insensitive (rel : List MappingEntry)
    (preserveUnmapped : Bool) (r : Row) (f1 f2 : String)
    (hlow : lowerString f1 = lowerString f2)
    (hmatch : (lookupMapping (loadMapping rel true) true f1
        r.Context).isSome = true) :
    runMapFlows (loadMapping rel true) true preserveUnmapped
        [{ r with Flowable := f1 }]
      = runMapFlows (loadMapping rel true) true preserveUnmapped
        [{ r with Flowable := f2 }] := by
  rcases he : lookupMapping (loadMapping rel true) true f1 r.Context with
    _ | e
  · rw [he] at hmatch
    cases hmatch
  · have he2 : lookupMapping (loadMapping rel true) true f2 r.Context
        = some e := by
      rw [← lookupMapping_lower (loadMapping rel true) f1 f2 r.Context hlow]
      exact he
    simp [runMapFlows, mapFlows, mapRow, he, he2]

/-- Witness for C5: mapping "CO2" and "co2" against the entry for "co2"
gives identical mapped output. -/
theorem map_flows_case_insensitive_witness :
    lowerString "CO2" = lowerString "co2" ∧
    (lookupMapping (loadMapping relCO2 true) true "CO2"
        rowBase.Context).isSome = true ∧
    runMapFlows (loadMapping relCO2 true) true false
        [{ rowBase with Flowable := "CO2" }]
      = runMapFlows (loadMapping relCO2 true) true false
        [{ rowBase with Flowable := "co2" }] :=
  ⟨by decide, by decide,
    map_flows_case_insensitive relCO2 false rowBase "CO2" "co2" (by decide)
      (by decide)⟩

/-- C6: the method cache round-trips: reading an identifier right after
storing a table under it yields that very table (hence the same rows and
values under any order-insensitive comparison), storing again under the
same identifier overwrites the prior artifact, and storing does not
disturb other identifiers. -/
theorem cache_round_trip (s : CacheState) (k k' : String)
    (t tPrior : List Row) :
    cacheRead (cacheStore s k t) k = some t ∧
    cacheStore (cacheStore s k tPrior) k t = cacheStore s k t ∧
    (k' ≠ k → cacheRead (cacheStore s k t) k' = cacheRead s k') :=
  ⟨cacheRead_store_self s k t, cacheStore_overwrite s k t tPrior,
    fun h => cacheRead_store_other s k k' t h⟩

/-- Witness for C6: storing a table for TRACI over a prior artifact and
reading it back, without disturbing the artifact stored for RECIPE_2016. -/
theorem cache_round_trip_witness :
    ("RECIPE_2016" : String) ≠ "TRACI" ∧
    cacheRead (cacheStore w6State "TRACI" w6Table) "RECIPE_2016"
      = cacheRead w6State "RECIPE_2016" :=
  ⟨by decide,
    (cache_round_trip w6State "TRACI" "RECIPE_2016" w6Table []).2.2
      (by decide)⟩

/-- C9: clearing the cache removes every stored artifact: a read of any
method identifier after `clear_cache` returns the absent sentinel, and
clearing an already empty cache is a no-op that leaves the empty state
unchanged rather than failing. -/
theorem clear_cache_removes_all (s : CacheState) (k : String) :
    cacheRead (clear_cache s) k = none ∧ clear_cache emptyCache = emptyCache :=
  ⟨rfl, rfl⟩
/-- C1: memoization contract of `get_mapped_method`: from a cache miss,
the first call generates the raw method, maps its flows (exactly one
mapping computation), consolidates the result and persists it under the
method identifier; every subsequent call for that identifier is answered
from the persisted table with zero mapping computations and an unchanged
cache state, the filters being applied to the persisted table. -/
theorem get_mapped_method_memoizes (env : GenEnv) (s : CacheState)
    (m : Method) (mm : MethodMeta) (sys : String)
    (hmiss : cacheRead s (methodName m) = none)
    (hmeta : get_metadata env.meta m = some mm)
    (hmap : mm.mapping = some sys) :
    ∃ out1 : GmmResult,
      get_mapped_method env s m none none = some out1 ∧
      out1.mapRuns = 1 ∧
      out1.table = collapse (runMapFlows
        (loadMapping (env.mappingSystem sys) mm.case_insensitivity)
        mm.case_insensitivity false
        (if mm.case_insensitivity then
          (env.rawMethod m).map
            (fun r => { r with Flowable := lowerString r.Flowable })
        else env.rawMethod m)) ∧
      cacheRead out1.state (methodName m) = some out1.table ∧
      ∀ indicators methodsFilter,
        get_mapped_method env out1.state m indicators methodsFilter =
          some ⟨(applyFilters out1.table indicators methodsFilter).fst,
                out1.state, 0,
                (applyFilters out1.table indicators methodsFilter).snd⟩ := by
  refine ⟨⟨collapse (runMapFlows
      (loadMapping (env.mappingSystem sys) mm.case_insensitivity)
      mm.case_insensitivity false
      (if mm.case_insensitivity then
        (env.rawMethod m).map
          (fun r => { r with Flowable := lowerString r.Flowable })
      else env.rawMethod m)),
    cacheStore s (methodName m) _, 1, ["generating " ++ methodName m]⟩,
    ?_, rfl, rfl, cacheRead_store_self _ _ _, ?_⟩
  · simp [get_mapped_method, hmiss, hmeta, hmap, applyFilters,
      filterIndicators, filterMethods]
  · intro indicators methodsFilter
    simp [get_mapped_method, cacheRead_store_self]

/-- C8: a caller filter that matches zero rows is reported: the call logs
the condition ("indicator not found" / "specified method not found") and
still returns normally with the possibly-empty filtered table and an
unchanged cache state, rather than raising or staying silent. -/
theorem gmm_empty_filter_reported (env : GenEnv) (s : CacheState)
    (m : Method) (t : List Row)
    (hhit : cacheRead s (methodName m) = some t) :
    (∀ inds : List String,
      t.filter (fun r => inds.contains r.Indicator) = [] →
      get_mapped_method env s m (some inds) none =
        some ⟨[], s, 0, ["indicator not found"]⟩) ∧
    (∀ ms : List String,
      t.filter (fun r => ms.contains r.Method) = [] →
      get_mapped_method env s m none (some ms) =
        some ⟨[], s, 0, ["specified method not found"]⟩) := by
  constructor
  · intro l hl
    have happ : applyFilters t (some l) none
        = ([], ["indicator not found"]) := by
      simp only [applyFilters, filterIndicators, filterMethods, hl]
      rfl
    simp [get_mapped_method, hhit, happ]
  · intro l hl
    have happ : applyFilters t none (some l)
        = ([], ["specified method not found"]) := by
      simp only [applyFilters, filterIndicators, filterMethods, hl]
      rfl
    simp [get_mapped_method, hhit, happ]

/-- C10: a string matching no member name, display value, mapping-system
name or sub-method key resolves to None: provided every member has a
metadata entry (as in the shipped metadata file), `Method.get_class` logs
"Method not found" and returns None instead of raising, and `get_method`
on the resolved identifier falls through all branches and returns None
rather than a table or an exception. -/
theorem unknown_method_returns_none (env : GenEnv) (nm : String)
    (h : ∀ c ∈ methodMembers, goodMeta env.meta nm c = true) :
    get_class env.meta nm = .ok (none, ["Method not found"]) ∧
    get_method_by_name env nm = .ok none := by
  have h1 : get_classAux env.meta nm methodMembers = .ok none :=
    get_classAux_none env.meta nm methodMembers h
  constructor
  · simp [get_class, h1]
  · simp [get_method_by_name, get_class, h1, get_method]
/-- Witness for C1: a concrete environment with a mapped TRACI-like
method, starting from the empty cache. -/
theorem get_mapped_method_memoizes_witness :
    cacheRead emptyCache (methodName Method.TRACI) = none ∧
    get_metadata w1Env.meta Method.TRACI = some w1Meta ∧
    w1Meta.mapping = some "TRACI2.1" ∧
    (∃ out1 : GmmResult,
      get_mapped_method w1Env emptyCache Method.TRACI none none
        = some out1 ∧
      out1.mapRuns = 1 ∧
      out1.table = collapse (runMapFlows
        (loadMapping (w1Env.mappingSystem "TRACI2.1")
          w1Meta.case_insensitivity)
        w1Meta.case_insensitivity false
        (if w1Meta.case_insensitivity then
          (w1Env.rawMethod Method.TRACI).map
            (fun r => { r with Flowable := lowerString r.Flowable })
        else w1Env.rawMethod Method.TRACI)) ∧
      cacheRead out1.state (methodName Method.TRACI) = some out1.table ∧
      ∀ indicators methodsFilter,
        get_mapped_method w1Env out1.state Method.TRACI indicators
            methodsFilter =
          some ⟨(applyFilters out1.table indicators methodsFilter).fst,
                out1.state, 0,
                (applyFilters out1.table indicators methodsFilter).snd⟩) :=
  ⟨rfl, by decide, rfl,
    get_mapped_method_memoizes w1Env emptyCache Method.TRACI w1Meta
      "TRACI2.1" rfl (by decide) rfl⟩

/-- Witness for C8: requesting a nonexistent indicator of a cached table
yields the logged condition and an empty returned table. -/
theorem gmm_empty_filter_reported_witness :
    cacheRead w8State (methodName Method.TRACI) = some w8Table ∧
    w8Table.filter
      (fun r => (["NoSuchIndicator"] : List String).contains r.Indicator)
      = [] ∧
    get_mapped_method w8Env w8State Method.TRACI (some ["NoSuchIndicator"])
        none = some ⟨[], w8State, 0, ["indicator not found"]⟩ :=
  ⟨rfl, rfl,
    (gmm_empty_filter_reported w8Env w8State Method.TRACI w8Table rfl).1
      ["NoSuchIndicator"] rfl⟩

/-- Witness for C10: the string "NotAMethod" matches no key of any member
over the shipped metadata, resolves to None and produces no table. -/
theorem unknown_method_returns_none_witness :
    (∀ c ∈ methodMembers, goodMeta w10Env.meta "NotAMethod" c = true) ∧
    (get_class w10Env.meta "NotAMethod"
        = .ok (none, ["Method not found"]) ∧
      get_method_by_name w10Env "NotAMethod" = .ok none) :=
  ⟨by decide, unknown_method_returns_none w10Env "NotAMethod" (by decide)⟩

end LciaFmt
